import Mathlib

/-!
Verification of the token store (`src/auth/token_store.js`).

The store persists a list of token records to a JSON file with an in-memory
cache and a serialized write queue.  We embed the store shallowly:

* a JS object (token record) is an association list of string fields;
* the on-disk file is a `FileContent` (absent, unparseable, legacy bare
  array, or `{salt, tokens}` object);
* the mutable fields of the `TokenStore` instance form a `StoreState`;
* each async method becomes a pure state-passing function; the external
  salt generator and the clock are passed as explicit parameters, and
  file-system failures as explicit flags;
* the promise write queue (`_writeQueue`) is modelled separately by the
  outcome algebra of `then`/`catch` chaining.
-/

namespace TokenStore

/-- A token record: a JS object with string-valued fields, as an
association list (field name, value).  JS object keys are unique; the
operations below only inspect the first binding of a field, matching JS
property lookup. -/
abbrev Record := List (String × String)

/-- JS property access `r[k]`: the value of field `k`, `none` when absent
(JS `undefined`). -/
def getField (r : Record) (k : String) : Option String :=
  (r.find? (fun p => p.1 == k)).map (·.2)

/-- JS rest-destructuring `const { k, ...plain } = r`: `plain` is `r`
without field `k`. -/
def removeField (r : Record) (k : String) : Record :=
  r.filter (fun p => !(p.1 == k))

/-- JS object spread `{...a, ...b}`: fields of `a` in order with values
overridden by `b` where present, followed by the fields of `b` absent
from `a`. -/
def spread (a b : Record) : Record :=
  (a.map (fun p => match getField b p.1 with
    | some v => (p.1, v)
    | none => p))
  ++ b.filter (fun p => (getField a p.1).isNone)

/-- The identity key of a record: its `refresh_token` field
(`token_store.js` line 247). -/
def keyOf (r : Record) : Option String := getField r "refresh_token"

/-- Dropping the non-persisted session field:
`const { sessionId, ...plain } = t` (`token_store.js` lines 249, 260). -/
def stripSession (r : Record) : Record := removeField r "sessionId"

/-! ## Store state

The on-disk file, as seen through `JSON.parse`, and the mutable fields of
a `TokenStore` instance (constructor, lines 22-32).  An empty file parses
like `'{}'` (`JSON.parse(data || '{}')`), so it is `.obj none none`. -/

/-- The parse outcome of the store file.  `.invalid` is a file whose
contents `JSON.parse` rejects; `.arr` is the legacy bare-array shape;
`.obj salt tokens` is any other JSON value, with `salt` its (string)
`salt` property and `tokens` its `tokens` property when that property is
an array (`none` models both an absent `tokens` and a non-array one:
the code only ever tests `parsed.tokens && Array.isArray(parsed.tokens)`).
Note that in JS an empty array is truthy, so `.obj s (some [])` passes
that test. -/
inductive FileContent where
  | absent : FileContent
  | invalid : FileContent
  | arr : List Record → FileContent
  | obj : Option String → Option (List Record) → FileContent
deriving DecidableEq, Repr

/-- Severity of a log call (`log.info` / `log.warn` / `log.error`). -/
inductive LogLevel where
  | info : LogLevel
  | warn : LogLevel
  | error : LogLevel
deriving DecidableEq, Repr

/-- The mutable fields of a `TokenStore` instance together with the store
file.  `cacheTime`/`cacheTTL` are in milliseconds of `Date.now()`;
`logged` records the severities of log calls, newest last.  The write
queue is modelled separately (see `submitOp`). -/
structure StoreState where
  file : FileContent
  cache : Option (List Record)
  cacheTime : Nat
  cacheTTL : Nat
  salt : Option String
  lastReadOk : Bool
  logged : List LogLevel
deriving DecidableEq, Repr

/-- JS truthiness of `parsed.salt`: present and not the empty string. -/
def saltTruthy : Option String → Bool
  | none => false
  | some s => !(s == "")

/-- `_ensureFileExists` (lines 34-53): create the parent directory
(no-op here), then if the file is absent create it with a fresh salt and
an empty token list.  `g` is the string the external `generateSalt`
returns; file creation is modelled as succeeding. -/
def ensureFileExists (s : StoreState) (g : String) : StoreState :=
  match s.file with
  | .absent =>
      { s with file := .obj (some g) (some []), logged := s.logged ++ [.info] }
  | _ => s

/-- `getSalt` (lines 103-139): return the cached salt if set; otherwise
ensure the file exists, read and parse it, migrating the legacy array
shape and injecting a salt into a saltless object; on read/parse failure
fall back to a process-local salt.  Returns the new state and the salt.
`g` is the value `generateSalt` would return on this call. -/
def getSalt (s : StoreState) (g : String) : StoreState × String :=
  match s.salt with
  | some v => (s, v)
  | none =>
    let s1 := ensureFileExists s g
    match s1.file with
    | .absent =>
        -- unreachable after ensure; `fs.readFile` would throw, caught at line 133
        ({ s1 with salt := some g, logged := s1.logged ++ [.error] }, g)
    | .invalid =>
        -- `JSON.parse` throws, caught at line 133: temporary salt
        ({ s1 with salt := some g, logged := s1.logged ++ [.error] }, g)
    | .arr records =>
        -- legacy array: migrate to `{salt, tokens}` (lines 112-121)
        ({ s1 with file := .obj (some g) (some records), salt := some g,
                   logged := s1.logged ++ [.info] }, g)
    | .obj osalt otokens =>
        if saltTruthy osalt then
          ({ s1 with salt := osalt }, osalt.getD "")
        else
          -- falsy salt: inject one and persist (lines 124-129)
          ({ s1 with file := .obj (some g) (some (otokens.getD [])),
                     salt := some g, logged := s1.logged ++ [.info] }, g)

/-- `_isCacheValid` (lines 141-145). -/
def isCacheValid (s : StoreState) (now : Nat) : Bool :=
  match s.cache with
  | none => false
  | some _ => decide (now - s.cacheTime < s.cacheTTL)

/-- `readAll` (lines 151-188): serve a valid cache, else read and parse
the file, accepting the bare-array or `{tokens: [...]}` shapes; on a
parse failure or format error fall back to the cached value (stale-but-
available) or `[]`, setting `_lastReadOk := false`.  Returns the new
state and the token list handed to the caller. -/
def readAll (s : StoreState) (now : Nat) (g : String) : StoreState × List Record :=
  if isCacheValid s now then (s, s.cache.getD [])
  else
    let s1 := ensureFileExists s g
    match s1.file with
    | .absent | .invalid =>
        -- read/parse throws, caught at lines 177-185: error log, stale fallback
        let s2 : StoreState :=
          { s1 with lastReadOk := false, logged := s1.logged ++ [.error] }
        match s2.cache with
        | some c => ({ s2 with cacheTime := now }, c)
        | none => (s2, [])
    | .arr records =>
        ({ s1 with cache := some records, lastReadOk := true, cacheTime := now },
         records)
    | .obj _ otokens =>
        match otokens with
        | some ts =>
            ({ s1 with cache := some ts, lastReadOk := true, cacheTime := now }, ts)
        | none =>
            -- format error (lines 168-176): warn, stale fallback
            let s2 : StoreState :=
              { s1 with lastReadOk := false, logged := s1.logged ++ [.warn] }
            match s2.cache with
            | some c => ({ s2 with cacheTime := now }, c)
            | none => (s2, [])

/-- The body of `writeAll` queued at line 199 (`writeOperation`,
lines 199-218), for a list input (line 196 normalizes a non-array input
to `[]` and passes an array through unchanged).  `writeFails` abstracts
`_atomicWrite` throwing; on failure the error is logged and rethrown
(second component `true` = the body threw), leaving cache, timestamp and
health flag untouched. -/
def writeAllOp (s : StoreState) (tokens : List Record) (now : Nat) (g : String)
    (writeFails : Bool) : StoreState × Bool :=
  let s1 := ensureFileExists s g
  let p := getSalt s1 g
  if writeFails then
    ({ p.1 with logged := p.1.logged ++ [.error] }, true)
  else
    ({ p.1 with file := .obj (some p.2) (some tokens),
                cache := some tokens, cacheTime := now, lastReadOk := true },
     false)

/-- `applyUpdate` (lines 245-252): find the first on-disk token with the
same `refresh_token` as the target and overwrite it with the spread of
itself and the target minus `sessionId`; do nothing when no index
matches (`findIndex` returns `-1`). -/
def applyUpdate (allTokens : List Record) (targetToken : Record) : List Record :=
  match allTokens.findIdx? (fun t => keyOf t == keyOf targetToken) with
  | some index =>
      allTokens.set index
        (spread (allTokens.getD index []) (stripSession targetToken))
  | none => allTokens

/-- `mergeOperation` (lines 241-272): read the full list, and produce
`none` (JS `null`, skip the write) when the last read failed and the
list is empty; the session-stripped active list when the disk list is
empty and the active list is not; otherwise the disk list updated from
`tokenToUpdate` or from each active token in order. -/
def mergeOperation (s : StoreState) (activeTokens : List Record)
    (tokenToUpdate : Option Record) (now : Nat) (g : String) :
    StoreState × Option (List Record) :=
  let p := readAll s now g
  let allTokens := p.2
  let hasActiveTokens := decide (0 < activeTokens.length)
  if !p.1.lastReadOk && allTokens.length == 0 then
    ({ p.1 with logged := p.1.logged ++ [.warn] }, none)
  else if allTokens.length == 0 && hasActiveTokens then
    (p.1, some (activeTokens.map stripSession))
  else
    match tokenToUpdate with
    | some t => (p.1, some (applyUpdate allTokens t))
    | none =>
        if hasActiveTokens then
          (p.1, some (activeTokens.foldl applyUpdate allTokens))
        else (p.1, some allTokens)

/-- The persistence step of the merge (lines 279-294): ensure the file
and salt, write `{salt, tokens: mergedTokens}` atomically and update the
cache; a write failure is logged and swallowed (line 293), leaving
cache, timestamp and health flag untouched. -/
def mergePersist (s : StoreState) (mergedTokens : List Record) (now : Nat)
    (g : String) (writeFails : Bool) : StoreState :=
  let s1 := ensureFileExists s g
  let p := getSalt s1 g
  if writeFails then { p.1 with logged := p.1.logged ++ [.error] }
  else
    { p.1 with file := .obj (some p.2) (some mergedTokens),
               cache := some mergedTokens, cacheTime := now, lastReadOk := true }

/-- The body of `mergeActiveTokens` queued at line 276: run
`mergeOperation`, return early on `null`, else persist. -/
def mergeOp (s : StoreState) (activeTokens : List Record)
    (tokenToUpdate : Option Record) (now : Nat) (g : String)
    (writeFails : Bool) : StoreState :=
  match mergeOperation s activeTokens tokenToUpdate now g with
  | (s1, none) => s1
  | (s1, some merged) => mergePersist s1 merged now g writeFails

/-! ## The write queue

`writeAll` (lines 220-228) and `mergeActiveTokens` (lines 274-300) both
extend the shared promise chain with
`this._writeQueue = this._writeQueue.then(body).catch(log)` and return
the resulting promise to the caller.  We model a promise by its settled
outcome and chaining by the `then`/`catch` laws. -/

/-- The settled outcome of a promise. -/
inductive PromiseOutcome where
  | resolved : PromiseOutcome
  | rejected : PromiseOutcome
deriving DecidableEq, Repr

/-- `q.then(body)`: the body runs only when `q` resolved, and the result
rejects when the body throws; a rejected `q` passes its rejection
through without running the body.  Returns (outcome, body ran?). -/
def thenStep (q : PromiseOutcome) (bodyFails : Bool) : PromiseOutcome × Bool :=
  match q with
  | .resolved => (if bodyFails then .rejected else .resolved, true)
  | .rejected => (.rejected, false)

/-- `q.catch(handler)` where the handler only logs and returns normally:
the result always resolves; the handler runs (logging the error) exactly
when `q` rejected.  Returns (outcome, handler ran?). -/
def catchStep (q : PromiseOutcome) : PromiseOutcome × Bool :=
  match q with
  | .resolved => (.resolved, false)
  | .rejected => (.resolved, true)

/-- What one queue submission yields. -/
structure SubmitResult where
  /-- the new `_writeQueue` promise -/
  newQueue : PromiseOutcome
  /-- the outcome of the promise returned to the caller
  (`return this._writeQueue`, after the `.catch`) -/
  callerObserved : PromiseOutcome
  /-- whether the submitted operation body executed -/
  bodyRan : Bool
  /-- whether the `.catch` handler logged an error -/
  loggedError : Bool
deriving DecidableEq, Repr

/-- One `writeAll`/`mergeActiveTokens` submission (lines 221-228 and
275-300): chain `.then(body).catch(log)` onto the current queue promise
and hand the post-`catch` promise back to the caller. -/
def submitOp (queue : PromiseOutcome) (bodyFails : Bool) : SubmitResult :=
  let t := thenStep queue bodyFails
  let c := catchStep t.1
  { newQueue := c.1, callerObserved := c.1, bodyRan := t.2, loggedError := c.2 }

/-- A sequence of submissions against the queue, which starts as
`Promise.resolve()` (line 30); each entry of `fails` says whether that
operation's body throws. -/
def runQueue : PromiseOutcome → List Bool → List SubmitResult
  | _, [] => []
  | q, b :: bs =>
      let r := submitOp q b
      r :: runQueue r.newQueue bs

/-! ## The atomic file writer

`_atomicWrite` (lines 55-97) writes to a fresh temp file, fsyncs, closes,
renames onto the target, retrying the rename once after unlinking the
target on `EEXIST`/`EPERM`; on any failure it unlinks the temp file
(best effort) and rethrows.  We model each file-system call by its
result code and record which calls the control flow reaches. -/

/-- Result of one file-system call: success or an error code. -/
inductive FsRes where
  | ok : FsRes
  | eexist : FsRes
  | eperm : FsRes
  | enoent : FsRes
  | eio : FsRes
deriving DecidableEq, Repr

/-- The results each file-system call in `_atomicWrite` would return if
reached: open/write/sync/close of the temp file, the first rename, the
unlink of the target, the retried rename, and the cleanup unlink of the
temp file. -/
structure FsBehavior where
  openRes : FsRes
  writeRes : FsRes
  syncRes : FsRes
  closeRes : FsRes
  rename1Res : FsRes
  unlinkTargetRes : FsRes
  rename2Res : FsRes
deriving DecidableEq, Repr

/-- What a `_atomicWrite` run did. -/
structure AtomicOutcome where
  /-- the promise resolved (no throw escaped) -/
  success : Bool
  /-- how many times `fs.rename(tempPath, filePath)` was attempted -/
  renameAttempts : Nat
  /-- some rename attempt completed successfully -/
  renameCompleted : Bool
  /-- `fs.unlink(this.filePath)` was attempted -/
  unlinkTargetAttempted : Bool
  /-- the catch block's `fs.unlink(tempPath)` cleanup was attempted -/
  unlinkTempAttempted : Bool
deriving DecidableEq, Repr

/-- The catch block (lines 82-96): close the handle and unlink the temp
file, both best effort, then rethrow. -/
def atomicFail (renameAttempts : Nat) (unlinkTarget : Bool) : AtomicOutcome :=
  { success := false, renameAttempts := renameAttempts, renameCompleted := false,
    unlinkTargetAttempted := unlinkTarget, unlinkTempAttempted := true }

/-- `_atomicWrite` (lines 55-97) as a function of the file-system call
results. -/
def atomicWrite (b : FsBehavior) : AtomicOutcome :=
  if b.openRes ≠ .ok then atomicFail 0 false
  else if b.writeRes ≠ .ok then atomicFail 0 false
  else if b.syncRes ≠ .ok then atomicFail 0 false
  else if b.closeRes ≠ .ok then atomicFail 0 false
  else
    match b.rename1Res with
    | .ok =>
        { success := true, renameAttempts := 1, renameCompleted := true,
          unlinkTargetAttempted := false, unlinkTempAttempted := false }
    | .eexist | .eperm =>
        -- lines 69-77: unlink the target (ENOENT tolerated), retry once
        match b.unlinkTargetRes with
        | .ok | .enoent =>
            if b.rename2Res = .ok then
              { success := true, renameAttempts := 2, renameCompleted := true,
                unlinkTargetAttempted := true, unlinkTempAttempted := false }
            else atomicFail 2 true
        | _ => atomicFail 1 true
    | _ => atomicFail 1 false

/-! ## Helper lemmas -/

/-- The `tokens` of a parsed store document (the persisted record
sequence), when the document has one. -/
def fileTokens : FileContent → Option (List Record)
  | .obj _ ts => ts
  | .arr rs => some rs
  | _ => none

/-- A store whose file holds a salt and no tokens yet, with a cold cache:
the state right after a first bootstrap.  Used to instantiate theorems at
concrete inputs. -/
def initState : StoreState :=
  { file := .obj (some "s") (some []), cache := none, cacheTime := 0,
    cacheTTL := 1000, salt := some "s", lastReadOk := true, logged := [] }

/-- A store over a one-record file `{salt: "s", tokens: [tokenA]}`, cold
cache.  Used to instantiate theorems at concrete inputs. -/
def oneTokenState : StoreState :=
  { file := .obj (some "s") (some [[("refresh_token", "a"), ("x", "1")]]),
    cache := none, cacheTime := 0, cacheTTL := 1000, salt := some "s",
    lastReadOk := true, logged := [] }

/-- A store whose file no longer parses and whose cache is cold.  Used to
instantiate theorems at concrete inputs. -/
def unreadableState : StoreState :=
  { file := .invalid, cache := none, cacheTime := 0, cacheTTL := 5,
    salt := some "s", lastReadOk := true, logged := [] }

/-- A freshly constructed store whose file does not exist yet.  Used to
instantiate theorems at concrete inputs. -/
def freshState : StoreState :=
  { file := .absent, cache := none, cacheTime := 0, cacheTTL := 5,
    salt := none, lastReadOk := true, logged := [] }

theorem getField_nil (k : String) : getField [] k = none := rfl

theorem getField_cons (p : String × String) (r : Record) (k : String) :
    getField (p :: r) k = if p.1 == k then some p.2 else getField r k := by
  by_cases h : p.1 == k <;> simp [getField, List.find?_cons, h]

theorem getField_removeField_self (r : Record) (k : String) :
    getField (removeField r k) k = none := by
  induction r with
  | nil => rfl
  | cons p r ih =>
    by_cases h : p.1 == k <;>
      simp [removeField, List.filter_cons, h, getField_cons] at ih ⊢ <;>
      simpa [removeField] using ih

theorem getField_removeField_ne (r : Record) (k k' : String) (hne : k' ≠ k) :
    getField (removeField r k) k' = getField r k' := by
  induction r with
  | nil => rfl
  | cons p r ih =>
    by_cases h : p.1 == k
    · have hp : p.1 = k := by simpa using h
      have : ¬ (p.1 == k') := by simp [hp]; exact fun hc => hne hc.symm
      simp [removeField, List.filter_cons, h, getField_cons, this] at ih ⊢
      simpa [removeField] using ih
    · by_cases h' : p.1 == k' <;>
        (simp [removeField, List.filter_cons, h, getField_cons, h'] at ih ⊢;
         try simpa [removeField] using ih)

/-- Lookup in the overlay part of a spread: values of `a` overridden by
`b` where present. -/
theorem getField_mapOverlay (a b : Record) (k : String) :
    getField (a.map (fun p => match getField b p.1 with
      | some v => (p.1, v)
      | none => p)) k
      = match getField a k with
        | none => none
        | some va => some ((getField b k).getD va) := by
  induction a with
  | nil => rfl
  | cons p a ih =>
    by_cases h : p.1 == k
    · have hp : p.1 = k := by simpa using h
      cases hb : getField b p.1 <;>
        simp [getField_cons, h, hp ▸ hb, hp]
    · cases hb : getField b p.1 <;>
        simp [getField_cons, h, hb, ih]

/-- Lookup in the remainder part of a spread: fields of `b` absent from
`a`. -/
theorem getField_filterAbsent (a b : Record) (k : String) :
    getField (b.filter (fun p => (getField a p.1).isNone)) k
      = match getField a k with
        | some _ => none
        | none => getField b k := by
  induction b with
  | nil => cases getField a k <;> rfl
  | cons p b ih =>
    by_cases h : p.1 == k
    · have hp : p.1 = k := by simpa using h
      cases ha : getField a k
      · simp [List.filter_cons, hp, ha, getField_cons, h, ih]
      · simp [List.filter_cons, hp, ha, getField_cons, ih]
    · cases hq : (getField a p.1).isNone <;>
        simp [List.filter_cons, hq, getField_cons, h, ih]

theorem getField_append (l₁ l₂ : Record) (k : String) :
    getField (l₁ ++ l₂) k = ((getField l₁ k).or (getField l₂ k)) := by
  induction l₁ with
  | nil => simp [getField]
  | cons p l₁ ih =>
    by_cases h : p.1 == k <;>
      simp [getField_cons, h, List.cons_append, ih]

/-- JS spread lookup law: `({...a, ...b})[k]` is `b[k]` when `b` has the
field, else `a[k]`. -/
theorem getField_spread (a b : Record) (k : String) :
    getField (spread a b) k = ((getField b k).or (getField a k)) := by
  unfold spread
  rw [getField_append, getField_mapOverlay, getField_filterAbsent]
  cases ha : getField a k <;> cases hb : getField b k <;> simp

theorem ensure_frame (s : StoreState) (g : String) :
    (ensureFileExists s g).cache = s.cache
    ∧ (ensureFileExists s g).cacheTime = s.cacheTime
    ∧ (ensureFileExists s g).cacheTTL = s.cacheTTL
    ∧ (ensureFileExists s g).salt = s.salt
    ∧ (ensureFileExists s g).lastReadOk = s.lastReadOk := by
  unfold ensureFileExists
  cases s.file <;> simp

theorem getSalt_frame (s : StoreState) (g : String) :
    (getSalt s g).1.cache = s.cache
    ∧ (getSalt s g).1.cacheTime = s.cacheTime
    ∧ (getSalt s g).1.cacheTTL = s.cacheTTL
    ∧ (getSalt s g).1.lastReadOk = s.lastReadOk := by
  unfold getSalt
  cases hs : s.salt
  · have he := ensure_frame s g
    cases hf : (ensureFileExists s g).file with
    | absent => simp_all
    | invalid => simp_all
    | arr records => simp_all
    | obj osalt otokens =>
        by_cases ht : saltTruthy osalt <;> simp_all
  · simp

theorem keyOf_stripSession (r : Record) : keyOf (stripSession r) = keyOf r := by
  unfold keyOf stripSession
  exact getField_removeField_ne r _ _ (by decide)

/-- Spreading the session-stripped target onto a record with the same key
does not change the key. -/
theorem keyOf_spread_stripSession (old t : Record) (h : keyOf old = keyOf t) :
    keyOf (spread old (stripSession t)) = keyOf old := by
  unfold keyOf at *
  rw [getField_spread, stripSession, getField_removeField_ne t _ _ (by decide)]
  cases ht : getField t "refresh_token" <;> simp_all

theorem getD_mem_of_lt {l : List Record} {i : Nat} (h : i < l.length) :
    l.getD i [] ∈ l := by
  rw [List.getD_eq_getElem l [] h]
  exact List.getElem_mem h

theorem findIdx?_lt_and_prop {p : Record → Bool} {l : List Record} {i : Nat}
    (h : l.findIdx? p = some i) : i < l.length ∧ p (l.getD i []) = true := by
  rw [List.findIdx?_eq_some_iff_findIdx_eq] at h
  obtain ⟨hlt, hfi⟩ := h
  refine ⟨hlt, ?_⟩
  rw [List.getD_eq_getElem l [] hlt]
  subst hfi
  exact List.findIdx_getElem

theorem map_keyOf_set (l : List Record) (i : Nat) (x : Record)
    (h : keyOf (l.getD i []) = keyOf x) :
    (l.set i x).map keyOf = l.map keyOf := by
  induction l generalizing i with
  | nil => simp
  | cons a l ih =>
    cases i with
    | zero => simp_all [List.set]
    | succ n =>
      simp only [List.set, List.map_cons]
      rw [ih n (by simpa using h)]

/-- `applyUpdate` never changes the sequence of record keys. -/
theorem map_keyOf_applyUpdate (l : List Record) (t : Record) :
    (applyUpdate l t).map keyOf = l.map keyOf := by
  unfold applyUpdate
  cases hf : l.findIdx? (fun r => keyOf r == keyOf t) with
  | none => rfl
  | some i =>
    obtain ⟨hlt, hp⟩ := findIdx?_lt_and_prop hf
    have hk : keyOf (l.getD i []) = keyOf t := by simpa using hp
    exact map_keyOf_set l i _ (keyOf_spread_stripSession _ _ hk).symm

theorem map_keyOf_foldl_applyUpdate (active l : List Record) :
    (active.foldl applyUpdate l).map keyOf = l.map keyOf := by
  induction active generalizing l with
  | nil => rfl
  | cons t active ih =>
    rw [List.foldl_cons, ih, map_keyOf_applyUpdate]

theorem applyUpdate_length (l : List Record) (t : Record) :
    (applyUpdate l t).length = l.length := by
  have := congrArg List.length (map_keyOf_applyUpdate l t)
  simpa using this

theorem foldl_applyUpdate_length (active l : List Record) :
    (active.foldl applyUpdate l).length = l.length := by
  have := congrArg List.length (map_keyOf_foldl_applyUpdate active l)
  simpa using this

theorem noSession_applyUpdate (l : List Record) (t : Record)
    (hl : ∀ r ∈ l, getField r "sessionId" = none) :
    ∀ r ∈ applyUpdate l t, getField r "sessionId" = none := by
  unfold applyUpdate
  cases hf : l.findIdx? (fun r => keyOf r == keyOf t) with
  | none => exact hl
  | some i =>
    obtain ⟨hlt, -⟩ := findIdx?_lt_and_prop hf
    intro r hr
    rcases List.mem_or_eq_of_mem_set hr with hmem | heq
    · exact hl r hmem
    · subst heq
      rw [getField_spread, stripSession, getField_removeField_self]
      simpa using hl _ (getD_mem_of_lt hlt)

theorem noSession_foldl_applyUpdate (active l : List Record)
    (hl : ∀ r ∈ l, getField r "sessionId" = none) :
    ∀ r ∈ active.foldl applyUpdate l, getField r "sessionId" = none := by
  induction active generalizing l with
  | nil => exact hl
  | cons t active ih =>
    rw [List.foldl_cons]
    exact ih _ (noSession_applyUpdate l t hl)

/-! ## Claim C1 -/

/-- C1, counterexample: an operation whose body fails, submitted on the
idle queue, runs its body, yet the promise handed back to its caller
(`return this._writeQueue`, the post-`catch` promise) resolves — the
failure is not reported to that operation's caller as the claim states;
it is only logged by the queue's catch handler. -/
theorem submitOp_failure_not_reported_to_caller :
    (submitOp .resolved true).bodyRan = true
    ∧ (submitOp .resolved true).loggedError = true
    ∧ (submitOp .resolved true).callerObserved = .resolved
    ∧ ¬ (submitOp .resolved true).callerObserved = .rejected := by
  decide

/-- C1, amended: for every sequence of write/merge submissions on the
shared queue, every operation's body executes (the queue is never torn
down by an individual failure), every caller's promise resolves — a
failing body is logged by the `.catch` handler, not reported to the
caller as a rejection — and the logged errors correspond exactly to the
failing bodies. -/
theorem submitOp_queue_never_torn_down (bs : List Bool) :
    (∀ r ∈ runQueue .resolved bs,
      r.bodyRan = true ∧ r.newQueue = .resolved ∧ r.callerObserved = .resolved)
    ∧ (runQueue .resolved bs).map SubmitResult.loggedError = bs := by
  induction bs with
  | nil => exact ⟨by simp [runQueue], rfl⟩
  | cons b bs ih =>
    have hq : (submitOp .resolved b).newQueue = .resolved := by
      cases b <;> rfl
    constructor
    · intro r hr
      rw [runQueue] at hr
      rcases List.mem_cons.mp hr with h | h
      · subst h
        refine ⟨?_, hq, ?_⟩ <;> cases b <;> rfl
      · exact ih.1 r (by rwa [hq] at h)
    · rw [runQueue, List.map_cons, hq, ih.2]
      cases b <;> rfl

/-- C1, witness: instantiating the amended theorem on the two-operation
schedule (first body fails, second succeeds) at the first operation. -/
theorem submitOp_queue_never_torn_down_witness :
    (submitOp .resolved true).bodyRan = true
    ∧ (submitOp .resolved true).newQueue = .resolved
    ∧ (submitOp .resolved true).callerObserved = .resolved :=
  (submitOp_queue_never_torn_down [true, false]).1 (submitOp .resolved true)
    (by decide)

/-! ## Case lemmas for `mergeOperation` and `mergeOp` -/

theorem mergeOperation_skip (s : StoreState) (active : List Record)
    (tu : Option Record) (now : Nat) (g : String)
    (h : (!(readAll s now g).1.lastReadOk
          && (readAll s now g).2.length == 0) = true) :
    mergeOperation s active tu now g
      = ({ (readAll s now g).1 with
            logged := (readAll s now g).1.logged ++ [.warn] }, none) := by
  unfold mergeOperation
  simp only [h, if_true]

theorem mergeOperation_init (s : StoreState) (active : List Record)
    (tu : Option Record) (now : Nat) (g : String)
    (h : (!(readAll s now g).1.lastReadOk
          && (readAll s now g).2.length == 0) = false)
    (h2 : ((readAll s now g).2.length == 0 && decide (0 < active.length)) = true) :
    mergeOperation s active tu now g
      = ((readAll s now g).1, some (active.map stripSession)) := by
  unfold mergeOperation
  simp only [h, h2, Bool.false_eq_true, if_false, if_true]

theorem mergeOperation_update (s : StoreState) (active : List Record)
    (tu : Option Record) (now : Nat) (g : String)
    (h : (!(readAll s now g).1.lastReadOk
          && (readAll s now g).2.length == 0) = false)
    (h2 : ((readAll s now g).2.length == 0 && decide (0 < active.length)) = false) :
    mergeOperation s active tu now g
      = ((readAll s now g).1,
         some (match tu with
           | some t => applyUpdate (readAll s now g).2 t
           | none =>
               if 0 < active.length then
                 active.foldl applyUpdate (readAll s now g).2
               else (readAll s now g).2)) := by
  unfold mergeOperation
  cases tu <;>
    (simp only [h, h2, Bool.false_eq_true, if_false, decide_eq_true_eq];
     try split <;> simp_all)

theorem mergeOp_persist_file (s : StoreState) (active : List Record)
    (tu : Option Record) (now : Nat) (g : String) (m : List Record)
    (hm : (mergeOperation s active tu now g).2 = some m) :
    fileTokens (mergeOp s active tu now g false).file = some m := by
  unfold mergeOp
  rcases hpair : mergeOperation s active tu now g with ⟨s1, om⟩
  rw [hpair] at hm
  simp only at hm
  subst hm
  simp [mergePersist, fileTokens]

theorem map_keyOf_stripSession (active : List Record) :
    (active.map stripSession).map keyOf = active.map keyOf := by
  rw [List.map_map]
  exact List.map_congr_left fun r _ => keyOf_stripSession r

/-! ## Claim C2 -/

/-- C2, counterexample: `writeAll` performs no deduplication
(lines 195-210 persist the normalized input verbatim), so writing a
sequence holding two records with the same `refresh_token` persists both:
the on-disk document then has two records for one key value, refuting
"at most one record per distinct key-field value ... for every input
sequence, including inputs that themselves contain duplicate keys". -/
theorem writeAll_keeps_duplicate_keys :
    fileTokens (writeAllOp initState
        [[("refresh_token", "a")], [("refresh_token", "a")]] 5 "g" false).1.file
      = some [[("refresh_token", "a")], [("refresh_token", "a")]]
    ∧ ¬ ([[("refresh_token", "a")], [("refresh_token", "a")]].map keyOf).Nodup := by
  constructor
  · rfl
  · decide

/-- C2, amended: key uniqueness is preserved, not enforced.  `writeAll`
persists its input sequence verbatim, so the persisted sequence has one
record per distinct key exactly when the input does; `mergeActiveTokens`
never changes the key sequence of a non-empty on-disk list and seeds an
empty store with the active list's keys, so whenever the list read from
disk and the active list each have pairwise-distinct keys, the persisted
sequence does too. -/
theorem write_merge_preserve_unique_keys (s : StoreState)
    (tokens active : List Record) (tu : Option Record) (now : Nat) (g : String) :
    fileTokens (writeAllOp s tokens now g false).1.file = some tokens
    ∧ (∀ m, (mergeOperation s active tu now g).2 = some m →
        (((readAll s now g).2.map keyOf).Nodup → ((active.map keyOf).Nodup) →
          (m.map keyOf).Nodup)
        ∧ fileTokens (mergeOp s active tu now g false).file = some m) := by
  constructor
  · unfold writeAllOp
    simp [fileTokens]
  · intro m hm
    refine ⟨?_, mergeOp_persist_file s active tu now g m hm⟩
    intro h1 h2
    by_cases hg : (!(readAll s now g).1.lastReadOk
        && (readAll s now g).2.length == 0) = true
    · rw [mergeOperation_skip s active tu now g hg] at hm
      exact absurd hm (by simp)
    · rw [Bool.not_eq_true] at hg
      by_cases hi : ((readAll s now g).2.length == 0
          && decide (0 < active.length)) = true
      · rw [mergeOperation_init s active tu now g hg hi] at hm
        obtain rfl : active.map stripSession = m := by simpa using hm
        rwa [map_keyOf_stripSession]
      · rw [Bool.not_eq_true] at hi
        rw [mergeOperation_update s active tu now g hg hi] at hm
        cases tu with
        | some t =>
            obtain rfl : applyUpdate (readAll s now g).2 t = m := by simpa using hm
            rwa [map_keyOf_applyUpdate]
        | none =>
            by_cases ha : 0 < active.length
            · simp only [ha, if_true] at hm
              obtain rfl : active.foldl applyUpdate (readAll s now g).2 = m := by
                simpa using hm
              rwa [map_keyOf_foldl_applyUpdate]
            · simp only [ha, if_false] at hm
              obtain rfl : (readAll s now g).2 = m := by simpa using hm
              exact h1

/-- C2, witness: instantiating the amended theorem on a one-record store
and a one-record active list sharing its key. -/
theorem write_merge_preserve_unique_keys_witness :
    fileTokens (writeAllOp oneTokenState [[("refresh_token", "b")]] 5 "g" false).1.file
      = some [[("refresh_token", "b")]]
    ∧ (([[("refresh_token", "a"), ("y", "2")]].foldl applyUpdate
          (readAll oneTokenState 5 "g").2).map keyOf).Nodup := by
  have h := write_merge_preserve_unique_keys oneTokenState
    [[("refresh_token", "b")]] [[("refresh_token", "a"), ("y", "2")]] none 5 "g"
  refine ⟨h.1, ?_⟩
  have h2 := h.2 ([[("refresh_token", "a"), ("y", "2")]].foldl applyUpdate
    (readAll oneTokenState 5 "g").2) (by decide)
  exact h2.1 (by decide) (by decide)

/-! ## Claim C3 -/

/-- C3, counterexample: `writeAll` persists its input verbatim
(lines 195-213 never destructure `sessionId` away), so writing a record
that carries the session field puts that field in the on-disk document,
refuting "for every input to writeAll ... the document written to disk
contains no record with that field". -/
theorem writeAll_persists_sessionId :
    fileTokens (writeAllOp initState
        [[("refresh_token", "a"), ("sessionId", "sess")]] 5 "g" false).1.file
      = some [[("refresh_token", "a"), ("sessionId", "sess")]]
    ∧ getField [("refresh_token", "a"), ("sessionId", "sess")] "sessionId"
      = some "sess" := by
  exact ⟨rfl, by decide⟩

/-- C3, amended: only `mergeActiveTokens` strips the session field.  For
every input to `mergeActiveTokens`, provided no record in the sequence it
reads from disk carries `sessionId`, the document it writes contains no
record with `sessionId`: active records are persisted through
`{...onDisk, ...plain}` or `({sessionId, ...plain}) => plain`, both of
which exclude the field.  `writeAll` persists its input verbatim,
session field included (see the counterexample). -/
theorem merge_strips_sessionId (s : StoreState) (active : List Record)
    (tu : Option Record) (now : Nat) (g : String)
    (hnos : ∀ r ∈ (readAll s now g).2, getField r "sessionId" = none) :
    ∀ m, (mergeOperation s active tu now g).2 = some m →
      (∀ r ∈ m, getField r "sessionId" = none)
      ∧ fileTokens (mergeOp s active tu now g false).file = some m := by
  intro m hm
  refine ⟨?_, mergeOp_persist_file s active tu now g m hm⟩
  by_cases hg : (!(readAll s now g).1.lastReadOk
      && (readAll s now g).2.length == 0) = true
  · rw [mergeOperation_skip s active tu now g hg] at hm
    exact absurd hm (by simp)
  · rw [Bool.not_eq_true] at hg
    by_cases hi : ((readAll s now g).2.length == 0
        && decide (0 < active.length)) = true
    · rw [mergeOperation_init s active tu now g hg hi] at hm
      obtain rfl : active.map stripSession = m := by simpa using hm
      intro r hr
      obtain ⟨a, -, rfl⟩ := List.mem_map.mp hr
      exact getField_removeField_self a "sessionId"
    · rw [Bool.not_eq_true] at hi
      rw [mergeOperation_update s active tu now g hg hi] at hm
      cases tu with
      | some t =>
          obtain rfl : applyUpdate (readAll s now g).2 t = m := by simpa using hm
          exact noSession_applyUpdate _ t hnos
      | none =>
          by_cases ha : 0 < active.length
          · simp only [ha, if_true] at hm
            obtain rfl : active.foldl applyUpdate (readAll s now g).2 = m := by
              simpa using hm
            exact noSession_foldl_applyUpdate active _ hnos
          · simp only [ha, if_false] at hm
            obtain rfl : (readAll s now g).2 = m := by simpa using hm
            exact hnos

/-- C3, witness: merging an active record that carries `sessionId` into a
clean one-record store persists the overlaid record without the session
field. -/
theorem merge_strips_sessionId_witness :
    (∀ r ∈ [[("refresh_token", "a"), ("x", "1"), ("y", "2")]],
        getField r "sessionId" = none)
    ∧ fileTokens (mergeOp oneTokenState
        [[("refresh_token", "a"), ("y", "2"), ("sessionId", "z")]]
        none 5 "g" false).file
      = some [[("refresh_token", "a"), ("x", "1"), ("y", "2")]] :=
  merge_strips_sessionId oneTokenState
    [[("refresh_token", "a"), ("y", "2"), ("sessionId", "z")]] none 5 "g"
    (by decide) [[("refresh_token", "a"), ("x", "1"), ("y", "2")]] (by decide)

/-! ## Claim C4 -/

/-- C4: `writeAll(R)` followed by `readAll()` after the cache freshness
window has expired, with all file operations succeeding and nothing in
between, returns exactly `R`, in order: the successful write persists
`{salt, tokens: R}` and the expired cache forces the read to take the
file branch, which hands back the parsed `tokens` array unchanged. -/
theorem writeAll_readAll_roundtrip (s : StoreState) (R : List Record)
    (now1 now2 : Nat) (g g2 : String)
    (hexp : s.cacheTTL ≤ now2 - now1) :
    (readAll (writeAllOp s R now1 g false).1 now2 g2).2 = R := by
  have httl : (getSalt (ensureFileExists s g) g).1.cacheTTL = s.cacheTTL :=
    ((getSalt_frame (ensureFileExists s g) g).2.2.1).trans (ensure_frame s g).2.2.1
  unfold writeAllOp
  simp only [Bool.false_eq_true, if_false]
  unfold readAll
  rw [if_neg]
  · simp [ensureFileExists]
  · simp [isCacheValid, httl]
    omega

/-- C4, witness: a concrete round trip through a fresh store. -/
theorem writeAll_readAll_roundtrip_witness :
    initState.cacheTTL ≤ 2000 - 5
    ∧ (readAll (writeAllOp initState
          [[("refresh_token", "a"), ("x", "1")], [("refresh_token", "b")]]
          5 "g" false).1 2000 "g2").2
      = [[("refresh_token", "a"), ("x", "1")], [("refresh_token", "b")]] :=
  ⟨by decide,
   writeAll_readAll_roundtrip initState
     [[("refresh_token", "a"), ("x", "1")], [("refresh_token", "b")]]
     5 2000 "g" "g2" (by decide)⟩

/-! ## Claim C5 -/

/-- C5: when the sequence read from disk is non-empty, the merge is
strictly update-by-key.  A single supplied record, or each active record
in order, is applied through `applyUpdate`; an applied record whose key
matches on-disk record `i` replaces it by `{...onDisk, ...plain}` — field
by field the active record's fields (session field excluded) win and
on-disk fields absent from the active record survive; a record whose key
matches nothing leaves the list untouched, and every persisted result
has exactly the on-disk count (no insert). -/
theorem merge_update_by_key (s : StoreState) (active : List Record)
    (t : Record) (tu : Option Record) (now : Nat) (g : String)
    (hne : (readAll s now g).2 ≠ []) :
    (mergeOperation s active (some t) now g).2
      = some (applyUpdate (readAll s now g).2 t)
    ∧ (0 < active.length →
        (mergeOperation s active none now g).2
          = some (active.foldl applyUpdate (readAll s now g).2))
    ∧ (∀ m, (mergeOperation s active tu now g).2 = some m →
        m.length = (readAll s now g).2.length)
    ∧ (∀ (l : List Record) (i : Nat),
        l.findIdx? (fun r => keyOf r == keyOf t) = some i →
          applyUpdate l t = l.set i (spread (l.getD i []) (stripSession t))
          ∧ (∀ k, k ≠ "sessionId" →
              getField (spread (l.getD i []) (stripSession t)) k
                = ((getField t k).or (getField (l.getD i []) k))))
    ∧ (∀ (l : List Record),
        l.findIdx? (fun r => keyOf r == keyOf t) = none →
          applyUpdate l t = l) := by
  have hlen : ((readAll s now g).2.length == 0) = false := by
    simpa [List.length_eq_zero] using hne
  have hg : (!(readAll s now g).1.lastReadOk
      && (readAll s now g).2.length == 0) = false := by
    rw [hlen, Bool.and_false]
  have hi : ((readAll s now g).2.length == 0
      && decide (0 < active.length)) = false := by
    rw [hlen, Bool.false_and]
  refine ⟨?_, ?_, ?_, ?_, ?_⟩
  · rw [mergeOperation_update s active (some t) now g hg hi]
  · intro ha
    rw [mergeOperation_update s active none now g hg hi]
    simp [ha]
  · intro m hm
    rw [mergeOperation_update s active tu now g hg hi] at hm
    cases tu with
    | some t' =>
        obtain rfl : applyUpdate (readAll s now g).2 t' = m := by simpa using hm
        exact applyUpdate_length _ t'
    | none =>
        by_cases ha : 0 < active.length
        · simp only [ha, if_true] at hm
          obtain rfl : active.foldl applyUpdate (readAll s now g).2 = m := by
            simpa using hm
          exact foldl_applyUpdate_length active _
        · simp only [ha, if_false] at hm
          obtain rfl : (readAll s now g).2 = m := by simpa using hm
          rfl
  · intro l i hidx
    constructor
    · unfold applyUpdate
      rw [hidx]
    · intro k hk
      rw [getField_spread, stripSession,
        getField_removeField_ne t "sessionId" k hk]
  · intro l hnone
    unfold applyUpdate
    rw [hnone]

/-- C5, witness: merging one active record keyed like the stored record
into a one-record store. -/
theorem merge_update_by_key_witness :
    (mergeOperation oneTokenState []
        (some [("refresh_token", "a"), ("y", "2"), ("sessionId", "z")]) 5 "g").2
      = some (applyUpdate (readAll oneTokenState 5 "g").2
          [("refresh_token", "a"), ("y", "2"), ("sessionId", "z")]) :=
  (merge_update_by_key oneTokenState []
    [("refresh_token", "a"), ("y", "2"), ("sessionId", "z")] none 5 "g"
    (by decide)).1

/-- A `readAll` that ends with the health flag down (a failed or
format-broken read) never changes the file or the cached value: every
failure branch keeps `_cache` and only a successful parse overwrites it,
and `readAll` never writes the file (only `_ensureFileExists` does, on an
absent file, after which the read succeeds). -/
theorem readAll_fail_frame (s : StoreState) (now : Nat) (g : String)
    (hflag : (readAll s now g).1.lastReadOk = false) :
    (readAll s now g).1.file = s.file ∧ (readAll s now g).1.cache = s.cache := by
  by_cases hv : isCacheValid s now = true
  · unfold readAll
    simp [hv]
  · unfold readAll at hflag ⊢
    rw [if_neg (by simp [hv])] at hflag ⊢
    cases hfile : s.file with
    | absent =>
        simp [ensureFileExists, hfile] at hflag
    | invalid =>
        simp only [ensureFileExists, hfile] at hflag ⊢
        cases hc : s.cache <;> simp [hfile, hc]
    | arr records =>
        simp [ensureFileExists, hfile] at hflag
    | obj osalt otokens =>
        simp only [ensureFileExists, hfile] at hflag ⊢
        cases otokens with
        | some ts => simp [hfile] at hflag
        | none => cases hc : s.cache <;> simp [hfile, hc]

/-! ## Claim C6 -/

/-- C6: when the read at the start of a merge leaves the health flag
down and yields an empty sequence, `mergeActiveTokens` is a no-op apart
from logging: `mergeOperation` returns `null` before the persistence
step runs (lines 254-257, 277-278), so for every active-records input
the store file and the cached value are unchanged and a warning is
appended to the log — whether or not a write would have failed. -/
theorem merge_no_write_on_failed_empty_read (s : StoreState)
    (active : List Record) (tu : Option Record) (now : Nat) (g : String)
    (wf : Bool)
    (hflag : (readAll s now g).1.lastReadOk = false)
    (hempty : (readAll s now g).2 = []) :
    (mergeOp s active tu now g wf).file = s.file
    ∧ (mergeOp s active tu now g wf).cache = s.cache
    ∧ (mergeOp s active tu now g wf).logged
        = (readAll s now g).1.logged ++ [.warn] := by
  have hg : (!(readAll s now g).1.lastReadOk
      && (readAll s now g).2.length == 0) = true := by
    simp [hflag, hempty]
  have hframe := readAll_fail_frame s now g hflag
  unfold mergeOp
  rw [mergeOperation_skip s active tu now g hg]
  exact ⟨hframe.1, hframe.2, rfl⟩

/-- C6, witness: merging a non-empty active list into a store whose file
is unreadable and whose cache is cold leaves file and cache untouched
and logs a warning after the read error. -/
theorem merge_no_write_on_failed_empty_read_witness :
    (mergeOp unreadableState [[("refresh_token", "a")]] none 10 "g" false).file
      = unreadableState.file
    ∧ (mergeOp unreadableState [[("refresh_token", "a")]] none 10 "g" false).cache
      = unreadableState.cache
    ∧ (mergeOp unreadableState [[("refresh_token", "a")]] none 10 "g" false).logged
      = (readAll unreadableState 10 "g").1.logged ++ [.warn] :=
  merge_no_write_on_failed_empty_read unreadableState [[("refresh_token", "a")]]
    none 10 "g" false (by decide) (by decide)

/-! ## Claim C7 -/

/-- C7: with the cache populated by a prior successful read or write
(`_cache = R`, non-empty) and the freshness window expired, a `readAll`
against a file that is invalid JSON — or parses to neither the bare
array nor an object with an array `tokens` — returns the previously
cached sequence, not an empty one.  (No exception escapes: both failure
paths are caught inside `readAll`, lines 168-176 and 177-185, which is
why the embedded `readAll` is total.) -/
theorem readAll_stale_fallback (s : StoreState) (R : List Record)
    (now : Nat) (g : String)
    (hc : s.cache = some R) (hne : R ≠ [])
    (hexp : s.cacheTTL ≤ now - s.cacheTime)
    (hbad : s.file = .invalid ∨ ∃ o, s.file = .obj o none) :
    (readAll s now g).2 = R
    ∧ (readAll s now g).2 ≠ []
    ∧ (readAll s now g).1.cache = some R := by
  have hv : isCacheValid s now = false := by
    simp only [isCacheValid, hc, decide_eq_false_iff_not]
    omega
  unfold readAll
  rw [if_neg (by simp [hv])]
  rcases hbad with hf | ⟨o, hf⟩ <;>
    simp [ensureFileExists, hf, hc, hne]

/-- C7, witness: a store holding a cached record whose file has become
unparseable still serves the cached record once the window expires. -/
theorem readAll_stale_fallback_witness :
    (readAll { unreadableState with
        cache := some [[("refresh_token", "a")]] } 10 "g").2
      = [[("refresh_token", "a")]]
    ∧ (readAll { unreadableState with
        cache := some [[("refresh_token", "a")]] } 10 "g").2 ≠ []
    ∧ (readAll { unreadableState with
        cache := some [[("refresh_token", "a")]] } 10 "g").1.cache
      = some [[("refresh_token", "a")]] :=
  readAll_stale_fallback
    { unreadableState with cache := some [[("refresh_token", "a")]] }
    [[("refresh_token", "a")]] 10 "g" rfl (by decide) (by decide)
    (Or.inl rfl)

/-! ## Claim C8 -/

/-- C8: bootstrapping an absent store file creates
`{salt: g, tokens: []}` with the generated salt `g` — non-empty, as the
external generator is specified to return an opaque random string — a
second bootstrap is a no-op, `getSalt` then returns exactly the persisted
salt and caches it in `_salt`, and once `_salt` is set `getSalt` returns
it unchanged forever, whatever the generator would produce next. -/
theorem bootstrap_salt_stable (s : StoreState) (g g2 : String)
    (habs : s.file = .absent) (hg : g ≠ "") (hs : s.salt = none) :
    (ensureFileExists s g).file = .obj (some g) (some [])
    ∧ ensureFileExists (ensureFileExists s g) g2 = ensureFileExists s g
    ∧ (getSalt (ensureFileExists s g) g2).2 = g
    ∧ (getSalt (ensureFileExists s g) g2).1.salt = some g
    ∧ (∀ (st : StoreState) (v g' : String),
        st.salt = some v → getSalt st g' = (st, v)) := by
  have h1 : ensureFileExists s g
      = { s with file := .obj (some g) (some []),
                 logged := s.logged ++ [.info] } := by
    simp [ensureFileExists, habs]
  have htru : saltTruthy (some g) = true := by
    simpa [saltTruthy] using hg
  refine ⟨by rw [h1], ?_, ?_, ?_, ?_⟩
  · rw [h1]
    simp [ensureFileExists]
  · rw [h1]
    simp [getSalt, hs, ensureFileExists, htru]
  · rw [h1]
    simp [getSalt, hs, ensureFileExists, htru]
  · intro st v g' hv
    simp [getSalt, hv]

/-- C8, witness: bootstrapping a fresh store with salt `"s1"`. -/
theorem bootstrap_salt_stable_witness :
    (ensureFileExists freshState "s1").file = .obj (some "s1") (some [])
    ∧ (getSalt (ensureFileExists freshState "s1") "s2").2 = "s1" := by
  have h := bootstrap_salt_stable freshState "s1" "s2" rfl (by decide) rfl
  exact ⟨h.1, h.2.2.1⟩

/-! ## Claim C9 -/

/-- C9: for every behavior of the underlying file system, `_atomicWrite`
signals success only when a rename has completed; on any failure it
attempts the temp-file cleanup and signals failure; it never attempts
the rename more than twice; and precisely when the first rename fails
with an "already exists" or "permission" class error it removes the
target and — if that removal succeeds or finds nothing — retries the
rename exactly once, while any other rename error triggers no removal
and no retry. -/
theorem atomicWrite_rename_retry (b : FsBehavior) :
    ((atomicWrite b).success = true → (atomicWrite b).renameCompleted = true)
    ∧ ((atomicWrite b).success = false →
        (atomicWrite b).unlinkTempAttempted = true)
    ∧ (atomicWrite b).renameAttempts ≤ 2
    ∧ (b.openRes = .ok → b.writeRes = .ok → b.syncRes = .ok →
        b.closeRes = .ok →
        (b.rename1Res = .eexist ∨ b.rename1Res = .eperm) →
        (atomicWrite b).unlinkTargetAttempted = true
        ∧ ((b.unlinkTargetRes = .ok ∨ b.unlinkTargetRes = .enoent) →
            (atomicWrite b).renameAttempts = 2))
    ∧ (b.openRes = .ok → b.writeRes = .ok → b.syncRes = .ok →
        b.closeRes = .ok →
        b.rename1Res ≠ .eexist → b.rename1Res ≠ .eperm →
        (atomicWrite b).unlinkTargetAttempted = false
        ∧ (atomicWrite b).renameAttempts = 1) := by
  rcases b with ⟨o, w, sy, cl, r1, u, r2⟩
  cases o <;> try (simp [atomicWrite, atomicFail]; done)
  cases w <;> try (simp [atomicWrite, atomicFail]; done)
  cases sy <;> try (simp [atomicWrite, atomicFail]; done)
  cases cl <;> try (simp [atomicWrite, atomicFail]; done)
  cases r1 <;> try (simp [atomicWrite, atomicFail]; done)
  all_goals cases u <;> try (simp [atomicWrite, atomicFail]; done)
  all_goals cases r2 <;> simp [atomicWrite, atomicFail]

/-- C9, witness: a behavior where the first rename fails with `EEXIST`
and the unlink and retry succeed — the writer removes the target,
renames a second time and reports success. -/
theorem atomicWrite_rename_retry_witness :
    (atomicWrite ⟨.ok, .ok, .ok, .ok, .eexist, .ok, .ok⟩).unlinkTargetAttempted
      = true
    ∧ (atomicWrite ⟨.ok, .ok, .ok, .ok, .eexist, .ok, .ok⟩).renameAttempts = 2
    ∧ (atomicWrite ⟨.ok, .ok, .ok, .ok, .eexist, .ok, .ok⟩).renameCompleted
      = true := by
  have h := atomicWrite_rename_retry ⟨.ok, .ok, .ok, .ok, .eexist, .ok, .ok⟩
  have h4 := h.2.2.2.1 rfl rfl rfl rfl (Or.inl rfl)
  exact ⟨h4.1, h4.2 (Or.inl rfl), h.1 (by decide)⟩

/-! ## Claim C10 -/

/-- C10: a failing atomic write never publishes unpersisted data.  A
`writeAll` whose write throws leaves `_cache`, `_cacheTime` and
`_lastReadOk` exactly as they were before the call (the assignments at
lines 211-213 sit after the `await this._atomicWrite`), and rethrows to
its queue link; a merge whose write throws leaves them exactly as the
initial `readAll` left them (lines 288-290 likewise sit after the
write), so the cache never reflects the merged-but-unpersisted
sequence. -/
theorem failed_write_leaves_cache_unchanged (s : StoreState)
    (tokens active : List Record) (tu : Option Record) (now : Nat)
    (g : String) :
    (writeAllOp s tokens now g true).1.cache = s.cache
    ∧ (writeAllOp s tokens now g true).1.cacheTime = s.cacheTime
    ∧ (writeAllOp s tokens now g true).1.lastReadOk = s.lastReadOk
    ∧ (writeAllOp s tokens now g true).2 = true
    ∧ (mergeOp s active tu now g true).cache
        = (mergeOperation s active tu now g).1.cache
    ∧ (mergeOp s active tu now g true).cacheTime
        = (mergeOperation s active tu now g).1.cacheTime
    ∧ (mergeOp s active tu now g true).lastReadOk
        = (mergeOperation s active tu now g).1.lastReadOk := by
  have hw : ∀ (st : StoreState),
      (writeAllOp st tokens now g true).1.cache = st.cache
      ∧ (writeAllOp st tokens now g true).1.cacheTime = st.cacheTime
      ∧ (writeAllOp st tokens now g true).1.lastReadOk = st.lastReadOk := by
    intro st
    have hg := getSalt_frame (ensureFileExists st g) g
    have he := ensure_frame st g
    unfold writeAllOp
    simp only [if_true]
    exact ⟨hg.1.trans he.1, hg.2.1.trans he.2.1, hg.2.2.2.trans he.2.2.2.2⟩
  have hp : ∀ (st : StoreState) (m : List Record),
      (mergePersist st m now g true).cache = st.cache
      ∧ (mergePersist st m now g true).cacheTime = st.cacheTime
      ∧ (mergePersist st m now g true).lastReadOk = st.lastReadOk := by
    intro st m
    have hg := getSalt_frame (ensureFileExists st g) g
    have he := ensure_frame st g
    unfold mergePersist
    simp only [if_true]
    exact ⟨hg.1.trans he.1, hg.2.1.trans he.2.1, hg.2.2.2.trans he.2.2.2.2⟩
  obtain ⟨h1, h2, h3⟩ := hw s
  refine ⟨h1, h2, h3, rfl, ?_⟩
  unfold mergeOp
  rcases hpair : mergeOperation s active tu now g with ⟨s1, om⟩
  cases om with
  | none => exact ⟨rfl, rfl, rfl⟩
  | some m => exact (hp s1 m)

end TokenStore
